import Mathlib

/-!
Shallow embedding, in exact rational arithmetic, of the model-fitting code of
the `tfm_tuberc` repository:

* `modelos/lee-carter.py` — `fit_lee_carter` and `forecast_kt`;
* `modelos/apc_bayes.py` — `build_apc_data` and the centered random-walk
  prior construction used for the alpha/beta/gamma effects;
* `modelos/eval_modelos.py` — `metrics_for` and its error metrics.

Library calls that live outside the repository are abstracted as parameters:
`numpy.linalg.svd` delivers its first singular triple `(u1, v1, s1)` as an
argument to `fit_lee_carter`, and the optional statsmodels ARIMA forecaster of
`forecast_kt` is an oracle `List ℚ → ℕ → Option (List ℚ)` whose `none` result
stands for "statsmodels missing or the fit/forecast raised".  Python floats
are modelled as exact rationals, so every tolerance constant (`1e-8` of
`np.isclose`, the `1e-12` epsilon) appears literally as a rational.
-/

set_option maxHeartbeats 1000000

/-! ### Lee–Carter fitter (`modelos/lee-carter.py`, `fit_lee_carter`) -/

/-- Row-wise (temporal) mean of the dense log-rate matrix; `np.nanmean(lnmx,
axis=1)` on a dense matrix (no NaN) is the plain row mean. -/
def rowMean {A T : ℕ} (lnmx : Fin A → Fin T → ℚ) (a : Fin A) : ℚ :=
  (∑ t, lnmx a t) / T

/-- The residual matrix `R = lnmx - ax[:, None]` that the code hands to
`numpy.linalg.svd` (the subsequent `np.where(np.isnan(R), 0.0, R)` is the
identity on a dense matrix). -/
def resid {A T : ℕ} (lnmx : Fin A → Fin T → ℚ) : Fin A → Fin T → ℚ :=
  fun a t => lnmx a t - rowMean lnmx a

/-- A legitimate first singular triple for a rank-one residual matrix:
`s1 ≥ 0`, a nonzero left vector, and exact reconstruction
`R = s1 * u1 ⊗ v1`.  (`numpy.linalg.svd` additionally returns unit-norm
`u1`, `v1`; unit norms are irrational in general, and every quantity the
claims inspect is invariant under the compensating rescaling
`u1 ↦ c·u1, v1 ↦ c'·v1, s1 ↦ s1/(c·c')` with `c, c' > 0`.) -/
def validRank1 {A T : ℕ} (R : Fin A → Fin T → ℚ) (u1 : Fin A → ℚ)
    (v1 : Fin T → ℚ) (s1 : ℚ) : Prop :=
  0 ≤ s1 ∧ (∃ a, u1 a ≠ 0) ∧ ∀ a t, R a t = s1 * u1 a * v1 t

/-- Embedding of `fit_lee_carter` from `modelos/lee-carter.py` (lines 61–98), with the first
singular triple of `R = lnmx - ax[:,None]` passed in as `(u1, v1, s1)`.
Mirrors the source line by line: `bx_raw = u1`; `kt_raw = s1 * v1`;
`bx_sum = sum(bx_raw)` replaced by the L1 norm plus `1e-12` when
`np.isclose(bx_sum, 0.0)` (i.e. `|bx_sum| ≤ 1e-8`); `bx = bx_raw / bx_sum`;
`kt = kt_raw * bx_sum`; then `kt` is centred by its mean and `ax` shifted by
`bx * mean(kt)`; finally `lnmx_fit = ax[:,None] + bx[:,None]*kt[None,:]`.
Returns `(ax, bx, kt, lnmx_fit)`. -/
def fit_lee_carter {A T : ℕ} (lnmx : Fin A → Fin T → ℚ)
    (u1 : Fin A → ℚ) (v1 : Fin T → ℚ) (s1 : ℚ) :
    (Fin A → ℚ) × (Fin A → ℚ) × (Fin T → ℚ) × (Fin A → Fin T → ℚ) :=
  let ax0 := fun a => rowMean lnmx a
  let bx_raw := u1
  let kt_raw := fun t => s1 * v1 t
  let bx_sum :=
    if |∑ a, bx_raw a| ≤ (1 : ℚ) / 10 ^ 8 then
      (∑ a, |bx_raw a|) + 1 / 10 ^ 12
    else
      ∑ a, bx_raw a
  let bx := fun a => bx_raw a / bx_sum
  let kt1 := fun t => kt_raw t * bx_sum
  let kt_mean := (∑ t, kt1 t) / T
  let kt := fun t => kt1 t - kt_mean
  let ax := fun a => ax0 a + bx a * kt_mean
  let lnmx_fit := fun a t => ax a + bx a * kt t
  (ax, bx, kt, lnmx_fit)

/-- The denominator actually used by the `sum(bx)=1` normalisation step of
`fit_lee_carter`: the raw sum, or the L1 norm plus `1e-12` when the raw sum
is within `np.isclose` tolerance of zero. -/
def lc_den {A : ℕ} (u1 : Fin A → ℚ) : ℚ :=
  if |∑ a, u1 a| ≤ (1 : ℚ) / 10 ^ 8 then (∑ a, |u1 a|) + 1 / 10 ^ 12
  else ∑ a, u1 a

/-! ### Time-index forecaster (`modelos/lee-carter.py`, `forecast_kt`) -/

/-- Degree-1 least-squares fit `np.polyfit(t, kt, 1)` written via the normal
equations (slope, intercept); agrees with numpy's Vandermonde least-squares
solution whenever the abscissae are not all equal. -/
def linfit (xs : List ℤ) (ys : List ℚ) : ℚ × ℚ :=
  let n : ℚ := xs.length
  let sx : ℚ := (xs.map fun x => (x : ℚ)).sum
  let sy : ℚ := ys.sum
  let sxx : ℚ := (xs.map fun x => ((x : ℚ)) ^ 2).sum
  let sxy : ℚ := ((xs.zip ys).map fun p => (p.1 : ℚ) * p.2).sum
  let b1 := (n * sxy - sx * sy) / (n * sxx - sx ^ 2)
  let b0 := (sy - b1 * sx) / n
  (b1, b0)

/-- Evaluation `np.polyval` of a degree-1 coefficient pair `(slope, intercept)`. -/
def polyval1 (coef : ℚ × ℚ) (x : ℤ) : ℚ := coef.1 * x + coef.2

/-- Embedding of `forecast_kt` from `modelos/lee-carter.py` (lines 101–131).  The ARIMA
random-walk-with-drift forecaster is external (statsmodels); it is abstracted
as `arima kt h`, whose `none` covers both `ARIMA is None` (import failed) and
any exception raised by `model.fit()` / `get_forecast` — in either case the
code falls through to the linear-trend fallback.  `years.max()` on an empty
array raises in numpy, modelled by the `none` result. -/
def forecast_kt (arima : List ℚ → ℕ → Option (List ℚ))
    (years : List ℤ) (kt : List ℚ) (horizon : ℤ) :
    Option (List ℤ × List ℚ) :=
  if horizon ≤ 0 then some (years, kt)
  else
    match years.max? with
    | none => none
    | some lastYear =>
      let h := horizon.toNat
      let futureYears := (List.range h).map fun i : ℕ => lastYear + 1 + (i : ℤ)
      match arima kt h with
      | some ktFuture => some (years ++ futureYears, kt ++ ktFuture)
      | none =>
        let coef := linfit years kt
        some (years ++ futureYears, kt ++ futureYears.map fun y => polyval1 coef y)

/-! ### APC data construction (`modelos/apc_bayes.py`, `build_apc_data`) -/

/-- Cohort index of `build_apc_data` (line 75): `ci = (ti - ai) + (A - 1)`. -/
def cohortIndex (A : ℕ) (ai ti : ℤ) : ℤ := (ti - ai) + ((A : ℤ) - 1)

/-- One row of the input table with the five required columns. -/
structure ApcRow where
  ano : ℤ
  sexo : ℤ
  gr_et : ℤ
  poblacion : ℚ
  conteo_defunciones : ℚ
deriving DecidableEq

/-- The input dataframe: its column-name list plus its rows. -/
structure ApcFrame where
  cols : List String
  rows : List ApcRow
deriving DecidableEq

/-- The required columns of `build_apc_data` (line 50). -/
def apc_req_cols : List String :=
  ["ano", "sexo", "gr_et", "poblacion", "conteo_defunciones"]

/-- Embedding of `d.pivot(index="gr_et", columns="ano", values=...)`: pandas raises
`ValueError: Index contains duplicate entries, cannot reshape` when two rows
share the same `(gr_et, ano)` pair; otherwise the pivot is the partial map
from `(gr_et, ano)` to the value of the unique matching row (absent pairs are
NaN, modelled as `none`). -/
def pivotVal (rows : List ApcRow) (val : ApcRow → ℚ) :
    Except String (ℤ → ℤ → Option ℚ) :=
  if (rows.map fun r => (r.gr_et, r.ano)).Nodup then
    .ok fun g y => (rows.find? fun r => r.gr_et == g && r.ano == y).map val
  else .error "Index contains duplicate entries, cannot reshape"

/-- The tuple `(ages, years, D, E, ai/ti/ci index lists)` returned by
`build_apc_data`; the observed cells are kept as `(ai, ti, ci)` triples. -/
structure ApcData where
  ages : List ℤ
  years : List ℤ
  D : ℤ → ℤ → Option ℚ
  E : ℤ → ℤ → Option ℚ
  obs : List (ℕ × ℕ × ℤ)

/-- Embedding of `build_apc_data` from `modelos/apc_bayes.py` (lines 43–78): check the
required columns, filter by sex (error when empty), pivot deaths and
exposures over sorted unique `gr_et` × `ano`, keep the cells where both
pivots are present and `E > 0` (error when none), compute the cohort index
of every kept cell, and run the in-code assertion `ci.min() >= 0 and
ci.max() < C` with `C = A + T - 1`. -/
def build_apc_data (df : ApcFrame) (sexo : ℤ) : Except String ApcData :=
  let miss := apc_req_cols.filter fun c => !(df.cols.contains c)
  if miss.isEmpty then
    let d := df.rows.filter fun r => r.sexo == sexo
    if d.isEmpty then .error "No hay datos para sexo"
    else
      let ages := ((d.map fun r => r.gr_et).dedup).insertionSort (· ≤ ·)
      let years := ((d.map fun r => r.ano).dedup).insertionSort (· ≤ ·)
      match pivotVal d (fun r => r.conteo_defunciones),
            pivotVal d (fun r => r.poblacion) with
      | .error e, _ => .error e
      | .ok _, .error e => .error e
      | .ok D, .ok E =>
        let obs := ages.flatMap fun g => years.filterMap fun y =>
          match D g y, E g y with
          | some _, some ev =>
            if 0 < ev then
              some (ages.indexOf g, years.indexOf y,
                cohortIndex ages.length (ages.indexOf g) (years.indexOf y))
            else none
          | _, _ => none
        if obs.isEmpty then .error "No hay celdas observadas con E>0"
        else
          if ∀ c ∈ obs, 0 ≤ c.2.2 ∧
              c.2.2 < (ages.length : ℤ) + years.length - 1 then
            .ok ⟨ages, years, D, E, obs⟩
          else .error "AssertionError"
  else .error "Faltan columnas"

/-! ### APC centered random-walk effects (`modelos/apc_bayes.py`, lines 121–134) -/

/-- One draw of an APC effect of length `n + 1` built from `n` increments:
`concatenate([zeros(1), cumsum(eps)]) * sigma`, then centred by subtracting
its mean — exactly the construction of `alpha`, `beta` and `gamma` in the
PyMC model (with `n = A-1`, `T-1`, `C-1` respectively). -/
def rw_centered (n : ℕ) (eps : Fin n → ℚ) (sigma : ℚ) : Fin (n + 1) → ℚ :=
  let walk : Fin (n + 1) → ℚ :=
    fun i => (∑ j : Fin n, if (j : ℕ) < (i : ℕ) then eps j else 0) * sigma
  fun i => walk i - (∑ k, walk k) / (n + 1)

/-- Coordinate-wise posterior mean over a list of draws, `post[name].mean(dim=
["chain", "draw"])`. -/
def postMean {m : ℕ} (draws : List (Fin m → ℚ)) : Fin m → ℚ :=
  fun i => (draws.map fun d => d i).sum / draws.length

/-! ### Fit evaluator (`modelos/eval_modelos.py`, `metrics_for`) -/

/-- Arithmetic mean of a list, `np.mean`. -/
def meanL (l : List ℚ) : ℚ := l.sum / l.length

/-- Mean absolute error `sklearn.metrics.mean_absolute_error` over `(y_true, y_pred)` pairs. -/
def maeL (pairs : List (ℚ × ℚ)) : ℚ := meanL (pairs.map fun p => |p.1 - p.2|)

/-- Mean squared error `sklearn.metrics.mean_squared_error` (the square of the code's RMSE,
which is `mean_squared_error(..., squared=False)`; the square root is
irrational in general, and RMSE is determined by — and swap-invariant
together with — this quantity). -/
def mseL (pairs : List (ℚ × ℚ)) : ℚ := meanL (pairs.map fun p => (p.1 - p.2) ^ 2)

/-- Mean absolute percentage error `np.mean(np.abs((y_true - y_pred) / y_true)) * 100`. -/
def mapeL (pairs : List (ℚ × ℚ)) : ℚ :=
  meanL (pairs.map fun p => |(p.1 - p.2) / p.1|) * 100

/-- Signed mean percentage error `np.mean((y_pred - y_true) / y_true) * 100`, the signed mean percentage
error of line 59. -/
def mpeL (pairs : List (ℚ × ℚ)) : ℚ :=
  meanL (pairs.map fun p => (p.2 - p.1) / p.1) * 100

/-- Coefficient of determination `sklearn.metrics.r2_score`: `1 - SS_res / SS_tot`. -/
def r2L (pairs : List (ℚ × ℚ)) : ℚ :=
  1 - (pairs.map fun p => (p.1 - p.2) ^ 2).sum /
      (pairs.map fun p => (p.1 - meanL (pairs.map Prod.fst)) ^ 2).sum

/-- Mean bias `np.mean(y_pred - y_true)`, line 61. -/
def biasL (pairs : List (ℚ × ℚ)) : ℚ := meanL (pairs.map fun p => p.2 - p.1)

/-- The metrics dictionary returned by `metrics_for`. -/
structure EvalMetrics where
  n : ℕ
  mae : ℚ
  mse : ℚ
  mape : ℚ
  mpe : ℚ
  r2 : ℚ
  bias : ℚ

/-- Embedding of `metrics_for` from `modelos/eval_modelos.py` (lines 36–71), with the two
pivots given as index lists plus partial value maps (`none` = NaN / missing
cell).  Restrict to the intersection of ages and of years (raise when either
is empty, line 43–44), flatten the common cells, keep the pairs where both
sides are finite, and compute the metrics; sklearn itself raises on empty
arrays ("Found array with 0 sample(s)"), which is the last error branch. -/
def metrics_for (obsAges obsYears : List ℤ) (obs : ℤ → ℤ → Option ℚ)
    (fitAges fitYears : List ℤ) (fit : ℤ → ℤ → Option ℚ) :
    Except String EvalMetrics :=
  let ages := obsAges.filter fun a => fitAges.contains a
  let years := obsYears.filter fun y => fitYears.contains y
  if ages.isEmpty || years.isEmpty then
    .error "No hay cruce comun edad-ano entre observado y ajustado"
  else
    let pairs := (ages.flatMap fun a => years.map fun y => (a, y)).filterMap
      fun c =>
        match obs c.1 c.2, fit c.1 c.2 with
        | some yt, some yp => some (yt, yp)
        | _, _ => none
    if pairs.isEmpty then .error "Found array with 0 samples"
    else
      .ok ⟨pairs.length, maeL pairs, mseL pairs, mapeL pairs, mpeL pairs,
           r2L pairs, biasL pairs⟩

/-! ### Concrete inputs used by counterexamples and witnesses -/

/-- A dense 2×2 log-rate matrix whose residual is `[[1,-1],[-1,1]]`; its
first left singular direction has coordinate sum zero, so the fitter takes
the `np.isclose(bx_sum, 0)` fallback branch on it. -/
def lnmxC : Fin 2 → Fin 2 → ℚ := ![![1, -1], ![-1, 1]]

/-- Left vector of a rank-one factorisation of `resid lnmxC`. -/
def u1C : Fin 2 → ℚ := ![1, -1]

/-- Right vector of a rank-one factorisation of `resid lnmxC`. -/
def v1C : Fin 2 → ℚ := ![1, -1]

/-- A dataframe with all required columns and two identical rows: pandas
`pivot` raises on the duplicated `(gr_et, ano)` key. -/
def dfDup : ApcFrame :=
  ⟨apc_req_cols,
   [⟨2000, 1, 1, 10, 2⟩, ⟨2000, 1, 1, 10, 2⟩]⟩

/-- A well-formed one-row dataframe (used to witness the no-error branch). -/
def dfOk : ApcFrame :=
  ⟨apc_req_cols, [⟨2000, 1, 1, 10, 2⟩, ⟨2001, 1, 1, 12, 3⟩, ⟨2000, 2, 1, 9, 1⟩]⟩

/-- Concrete dense matrix for witnesses. -/
def lnmxW : Fin 2 → Fin 2 → ℚ := fun a t => (a : ℚ) + 2 * (t : ℚ)

/-- Concrete left singular vector for witnesses (raw sum `2`, far from 0). -/
def u1W : Fin 2 → ℚ := fun _ => 1

/-- Concrete right singular vector for witnesses. -/
def v1W : Fin 2 → ℚ := fun t => (t : ℚ)

/-! ## Theorems -/

lemma lc_den_ne_zero {A : ℕ} (u1 : Fin A → ℚ) : lc_den u1 ≠ 0 := by
  unfold lc_den
  split
  · have h1 : (0 : ℚ) ≤ ∑ a, |u1 a| := Finset.sum_nonneg fun a _ => abs_nonneg _
    have h2 : (0 : ℚ) < 1 / 10 ^ 12 := by norm_num
    exact ne_of_gt (by linarith)
  · rename_i h
    intro h0
    exact h (by rw [h0]; norm_num)

lemma fit_lee_carter_eq {A T : ℕ} (lnmx : Fin A → Fin T → ℚ)
    (u1 : Fin A → ℚ) (v1 : Fin T → ℚ) (s1 : ℚ) :
    fit_lee_carter lnmx u1 v1 s1 =
      (fun a => rowMean lnmx a +
          u1 a / lc_den u1 * ((∑ t, s1 * v1 t * lc_den u1) / T),
       fun a => u1 a / lc_den u1,
       fun t => s1 * v1 t * lc_den u1 - (∑ t, s1 * v1 t * lc_den u1) / T,
       fun a t =>
         (rowMean lnmx a + u1 a / lc_den u1 * ((∑ t, s1 * v1 t * lc_den u1) / T)) +
         u1 a / lc_den u1 *
           (s1 * v1 t * lc_den u1 - (∑ t, s1 * v1 t * lc_den u1) / T)) := rfl

/-- C1: for every dense matrix with at least 2 ages and 2 years, and any
first singular triple `(u1, v1, s1)` delivered by the SVD,
`fit_lee_carter` returns `(ax, bx, kt, lnmx_fit)` with
`lnmx_fit[a,t] = ax[a] + bx[a]*kt[t]`, and the `sum(bx)=1` normalisation
together with the `kt` re-centering preserve the reconstructed surface
exactly: `ax + bx⊗kt` equals the row mean of `lnmx` plus the raw rank-1
term `bx_raw⊗kt_raw = u1⊗(s1*v1)`. -/
theorem fit_lee_carter_reconstruction {A T : ℕ} (lnmx : Fin A → Fin T → ℚ)
    (u1 : Fin A → ℚ) (v1 : Fin T → ℚ) (s1 : ℚ) (hA : 2 ≤ A) (hT : 2 ≤ T) :
    ∃ p : (Fin A → ℚ) × (Fin A → ℚ) × (Fin T → ℚ) × (Fin A → Fin T → ℚ),
      fit_lee_carter lnmx u1 v1 s1 = p ∧
      (∀ a t, p.2.2.2 a t = p.1 a + p.2.1 a * p.2.2.1 t) ∧
      (∀ a t, p.1 a + p.2.1 a * p.2.2.1 t =
        rowMean lnmx a + u1 a * (s1 * v1 t)) := by
  refine ⟨_, rfl, fun a t => rfl, fun a t => ?_⟩
  have hden := lc_den_ne_zero u1
  rw [fit_lee_carter_eq]
  field_simp
  ring

/-- C1 witness: the reconstruction identity instantiated at a concrete
2×2 matrix and singular triple. -/
theorem fit_lee_carter_reconstruction_w :
    ∃ p : (Fin 2 → ℚ) × (Fin 2 → ℚ) × (Fin 2 → ℚ) × (Fin 2 → Fin 2 → ℚ),
      fit_lee_carter lnmxW u1W v1W 3 = p ∧
      (∀ a t, p.2.2.2 a t = p.1 a + p.2.1 a * p.2.2.1 t) ∧
      (∀ a t, p.1 a + p.2.1 a * p.2.2.1 t =
        rowMean lnmxW a + u1W a * (3 * v1W t)) :=
  fit_lee_carter_reconstruction lnmxW u1W v1W 3 (by decide) (by decide)

lemma lnmxC_rank1_sum_zero (u1 v1 : Fin 2 → ℚ) (s1 : ℚ)
    (hv : validRank1 (resid lnmxC) u1 v1 s1) : (∑ a, u1 a) = 0 := by
  obtain ⟨hs1, hne, hrec⟩ := hv
  have h00 := hrec 0 0
  have h10 := hrec 1 0
  have e00 : resid lnmxC 0 0 = 1 := by
    norm_num [resid, rowMean, lnmxC, Fin.sum_univ_two]
  have e10 : resid lnmxC 1 0 = -1 := by
    norm_num [resid, rowMean, lnmxC, Fin.sum_univ_two]
  rw [e00] at h00
  rw [e10] at h10
  have hsv : s1 * v1 0 ≠ 0 := by
    intro h0
    have h1 : (1 : ℚ) = 0 := by
      calc (1 : ℚ) = s1 * u1 0 * v1 0 := h00
        _ = u1 0 * (s1 * v1 0) := by ring
        _ = 0 := by rw [h0, mul_zero]
    exact one_ne_zero h1
  have hsum : s1 * v1 0 * (u1 0 + u1 1) = 0 := by linear_combination -h00 - h10
  have h2 : u1 0 + u1 1 = 0 := by
    rcases mul_eq_zero.mp hsum with h | h
    · exact absurd h hsv
    · exact h
  rw [Fin.sum_univ_two]
  exact h2

/-- C2 counterexample: the 2×2 matrix `lnmxC` has residual `[[1,-1],[-1,1]]`,
and every rank-one factorisation `R = s1 * u1 ⊗ v1` of that residual — in
particular the unit-norm first singular triple `numpy.linalg.svd` returns,
`u1 = ±(1,-1)/√2` — has coordinate sum `sum(u1) = 0`.  So on this input the
code always takes the `np.isclose(bx_sum, 0)` fallback and divides by the
L1 norm plus `1e-12`, producing `sum(bx) = 0`: the `sum(bx) = 1` constraint
fails by a full unit, far beyond the `1e-8` tolerance, for every singular
triple the SVD could deliver (the concrete triple `(u1C, v1C, 1)` shows the
factorisations are nonempty). -/
theorem fit_lee_carter_bx_sum_cex :
    validRank1 (resid lnmxC) u1C v1C 1 ∧
    ∀ u1 v1 : Fin 2 → ℚ, ∀ s1 : ℚ, validRank1 (resid lnmxC) u1 v1 s1 →
      (∑ a, u1 a) = 0 ∧
      (∑ a, (fit_lee_carter lnmxC u1 v1 s1).2.1 a) = 0 ∧
      ¬ |(∑ a, (fit_lee_carter lnmxC u1 v1 s1).2.1 a) - 1| ≤ (1 : ℚ) / 10 ^ 8 := by
  constructor
  · refine ⟨by norm_num, ⟨0, by norm_num [u1C]⟩, ?_⟩
    intro a t
    fin_cases a <;> fin_cases t <;>
      norm_num [resid, rowMean, lnmxC, u1C, v1C, Fin.sum_univ_two]
  · intro u1 v1 s1 hv
    have hsum := lnmxC_rank1_sum_zero u1 v1 s1 hv
    have hbx : (∑ a, (fit_lee_carter lnmxC u1 v1 s1).2.1 a) = 0 := by
      rw [fit_lee_carter_eq]
      simp only
      rw [← Finset.sum_div, hsum, zero_div]
    refine ⟨hsum, hbx, ?_⟩
    rw [hbx]
    norm_num

/-- C2 amended: for every input matrix with ≥2 ages and ≥2 years,
`sum(kt) = 0` holds exactly; `sum(bx) = 1` holds exactly whenever the raw
first-left-singular-vector sum is not within `1e-8` of zero (the branch
where the code divides by the sum itself); in the near-zero fallback branch
the code divides by the L1 norm plus `1e-12` instead, and `sum(bx)` equals
`sum(u1) / (‖u1‖₁ + 1e-12)`, which need not be near 1. -/
theorem fit_lee_carter_constraints {A T : ℕ} (lnmx : Fin A → Fin T → ℚ)
    (u1 : Fin A → ℚ) (v1 : Fin T → ℚ) (s1 : ℚ) (hA : 2 ≤ A) (hT : 2 ≤ T) :
    (∑ t, (fit_lee_carter lnmx u1 v1 s1).2.2.1 t) = 0 ∧
    (¬ |∑ a, u1 a| ≤ (1 : ℚ) / 10 ^ 8 →
      (∑ a, (fit_lee_carter lnmx u1 v1 s1).2.1 a) = 1) ∧
    (|∑ a, u1 a| ≤ (1 : ℚ) / 10 ^ 8 →
      (∑ a, (fit_lee_carter lnmx u1 v1 s1).2.1 a) =
        (∑ a, u1 a) / ((∑ a, |u1 a|) + 1 / 10 ^ 12)) := by
  have hT0 : (T : ℚ) ≠ 0 := Nat.cast_ne_zero.mpr (by omega)
  refine ⟨?_, ?_, ?_⟩
  · rw [fit_lee_carter_eq]
    simp only
    rw [Finset.sum_sub_distrib, Finset.sum_const, Finset.card_univ,
      Fintype.card_fin, nsmul_eq_mul]
    field_simp
  · intro h
    rw [fit_lee_carter_eq]
    simp only
    rw [← Finset.sum_div]
    unfold lc_den
    rw [if_neg h]
    refine div_self fun h0 => h ?_
    rw [h0]
    norm_num
  · intro h
    rw [fit_lee_carter_eq]
    simp only
    rw [← Finset.sum_div]
    unfold lc_den
    rw [if_pos h]

/-- C2 amended witness: the constraints instantiated at a concrete 2×2
matrix with raw singular-vector sum `2` (non-fallback branch). -/
theorem fit_lee_carter_constraints_w :
    (∑ t, (fit_lee_carter lnmxW u1W v1W 3).2.2.1 t) = 0 ∧
    (¬ |∑ a, u1W a| ≤ (1 : ℚ) / 10 ^ 8 →
      (∑ a, (fit_lee_carter lnmxW u1W v1W 3).2.1 a) = 1) ∧
    (|∑ a, u1W a| ≤ (1 : ℚ) / 10 ^ 8 →
      (∑ a, (fit_lee_carter lnmxW u1W v1W 3).2.1 a) =
        (∑ a, u1W a) / ((∑ a, |u1W a|) + 1 / 10 ^ 12)) :=
  fit_lee_carter_constraints lnmxW u1W v1W 3 (by decide) (by decide)

/-- C3: in `build_apc_data`, for `A` age groups and `T` years, every cohort
index `ci = (ti - ai) + (A - 1)` over observed cells (`0 ≤ ai ≤ A-1`,
`0 ≤ ti ≤ T-1`) lies in `[0, A+T-2]` (strictly below `C = A+T-1`, so the
in-code assertion never fires), and `ci = 0` exactly at
`ai = A-1, ti = 0`. -/
theorem cohort_index_range (A T : ℕ) (ai ti : ℤ) (hA : 1 ≤ A) (hT : 1 ≤ T)
    (h0a : 0 ≤ ai) (h1a : ai ≤ (A : ℤ) - 1) (h0t : 0 ≤ ti)
    (h1t : ti ≤ (T : ℤ) - 1) :
    0 ≤ cohortIndex A ai ti ∧ cohortIndex A ai ti ≤ (A : ℤ) + T - 2 ∧
    cohortIndex A ai ti < (A : ℤ) + T - 1 ∧
    (cohortIndex A ai ti = 0 ↔ ai = (A : ℤ) - 1 ∧ ti = 0) := by
  unfold cohortIndex
  omega

/-- C3 witness: the cohort-index bounds instantiated at `A = 3`, `T = 4`,
`ai = 2`, `ti = 0` (the unique cell of cohort 0). -/
theorem cohort_index_range_w :
    0 ≤ cohortIndex 3 2 0 ∧ cohortIndex 3 2 0 ≤ (3 : ℤ) + 4 - 2 ∧
    cohortIndex 3 2 0 < (3 : ℤ) + 4 - 1 ∧
    (cohortIndex 3 2 0 = 0 ↔ (2 : ℤ) = (3 : ℤ) - 1 ∧ (0 : ℤ) = 0) :=
  cohort_index_range 3 4 2 0 (by decide) (by decide) (by decide)
    (by decide) (by decide) (by decide)

/-- C4: for nonempty sorted years and any well-behaved ARIMA oracle (a
successful forecast of `h` steps has length `h`, as statsmodels guarantees),
`forecast_kt` with `h = 0` returns its inputs unchanged, and with `h > 0`
returns the historical years and kt followed by exactly `h` appended
entries, the appended years being `last_year+1 .. last_year+h`; output
lengths are input lengths plus `h` and the historical prefix is preserved
verbatim (in both the ARIMA branch and the linear-trend fallback). -/
theorem forecast_kt_spec (arima : List ℚ → ℕ → Option (List ℚ))
    (years : List ℤ) (kt : List ℚ) (horizon : ℤ) (hne : years ≠ [])
    (hlen : ∀ h l, arima kt h = some l → l.length = h) (hh : 0 ≤ horizon) :
    ∃ ly res, years.max? = some ly ∧
      forecast_kt arima years kt horizon = some res ∧
      (horizon = 0 → res = (years, kt)) ∧
      res.1 = years ++ (List.range horizon.toNat).map (fun i : ℕ => ly + 1 + (i : ℤ)) ∧
      res.2.length = kt.length + horizon.toNat ∧
      res.2.take kt.length = kt := by
  obtain ⟨ly, hly⟩ : ∃ ly, years.max? = some ly := by
    cases hmax : years.max? with
    | none => exact absurd (List.max?_eq_none_iff.mp hmax) hne
    | some ly => exact ⟨ly, rfl⟩
  by_cases h0 : horizon ≤ 0
  · have hz : horizon = 0 := le_antisymm h0 hh
    subst hz
    refine ⟨ly, (years, kt), hly, ?_, fun _ => rfl, ?_, ?_, ?_⟩
    · simp [forecast_kt]
    · simp
    · simp
    · simp [List.take_left]
  · have h0' : ¬ horizon ≤ 0 := h0
    cases harima : arima kt horizon.toNat with
    | some l =>
      refine ⟨ly,
        (years ++ (List.range horizon.toNat).map (fun i : ℕ => ly + 1 + (i : ℤ)),
         kt ++ l), hly, ?_, ?_, rfl, ?_, ?_⟩
      · simp only [forecast_kt, if_neg h0', hly, harima]
      · intro hz; exact absurd (le_of_eq hz) h0'
      · simp [hlen _ _ harima]
      · simp [List.take_left]
    | none =>
      refine ⟨ly,
        (years ++ (List.range horizon.toNat).map (fun i : ℕ => ly + 1 + (i : ℤ)),
         kt ++ ((List.range horizon.toNat).map
            (fun i : ℕ => ly + 1 + (i : ℤ))).map fun y => polyval1 (linfit years kt) y),
        hly, ?_, ?_, rfl, ?_, ?_⟩
      · simp only [forecast_kt, if_neg h0', hly, harima]
      · intro hz; exact absurd (le_of_eq hz) h0'
      · simp
      · simp [List.take_left]

/-- C4 witness: the forecast contract instantiated with a two-year history,
horizon 2, and an oracle returning a forecast of the requested length. -/
theorem forecast_kt_spec_w :
    ∃ ly res, ([2000, 2001] : List ℤ).max? = some ly ∧
      forecast_kt (fun _ n => some (List.replicate n 0)) [2000, 2001]
        [1, 3] 2 = some res ∧
      ((2 : ℤ) = 0 → res = ([2000, 2001], [1, 3])) ∧
      res.1 = [2000, 2001] ++
        (List.range (2 : ℤ).toNat).map (fun i : ℕ => ly + 1 + (i : ℤ)) ∧
      res.2.length = ([1, 3] : List ℚ).length + (2 : ℤ).toNat ∧
      res.2.take ([1, 3] : List ℚ).length = [1, 3] :=
  forecast_kt_spec (fun _ n => some (List.replicate n 0)) [2000, 2001] [1, 3] 2
    (by decide) (fun h l e => by cases e; simp) (by decide)

/-- C5: `forecast_kt` never fails on valid input: when the ARIMA oracle
reports failure (statsmodels unavailable, or `fit`/`get_forecast` raised),
the function still returns a result, and for a positive horizon that result
is exactly the ordinary-least-squares linear trend over `(years, kt)`
extrapolated to the future years — the silent automatic fallback. -/
theorem forecast_kt_fallback (arima : List ℚ → ℕ → Option (List ℚ))
    (years : List ℤ) (kt : List ℚ) (horizon : ℤ) (hne : years ≠ [])
    (hfail : arima kt horizon.toNat = none) :
    ∃ res, forecast_kt arima years kt horizon = some res ∧
      (0 < horizon →
        ∃ ly, years.max? = some ly ∧
          res = (years ++ (List.range horizon.toNat).map
                   (fun i : ℕ => ly + 1 + (i : ℤ)),
                 kt ++ ((List.range horizon.toNat).map
                   (fun i : ℕ => ly + 1 + (i : ℤ))).map
                     fun y => polyval1 (linfit years kt) y)) := by
  by_cases h0 : horizon ≤ 0
  · exact ⟨(years, kt), by simp [forecast_kt, h0],
      fun hpos => absurd hpos (not_lt.mpr h0)⟩
  · obtain ⟨ly, hly⟩ : ∃ ly, years.max? = some ly := by
      cases hmax : years.max? with
      | none => exact absurd (List.max?_eq_none_iff.mp hmax) hne
      | some ly => exact ⟨ly, rfl⟩
    refine ⟨_, ?_, fun _ => ⟨ly, hly, rfl⟩⟩
    simp only [forecast_kt, if_neg h0, hly, hfail]

/-- C5 witness: the fallback result at a concrete two-year history with a
failing ARIMA oracle and horizon 2. -/
theorem forecast_kt_fallback_w :
    ∃ res, forecast_kt (fun _ _ => none) [2000, 2001] [1, 3] 2 = some res ∧
      ((0 : ℤ) < 2 →
        ∃ ly, ([2000, 2001] : List ℤ).max? = some ly ∧
          res = ([2000, 2001] ++ (List.range (2 : ℤ).toNat).map
                   (fun i : ℕ => ly + 1 + (i : ℤ)),
                 [1, 3] ++ ((List.range (2 : ℤ).toNat).map
                   (fun i : ℕ => ly + 1 + (i : ℤ))).map
                     fun y => polyval1 (linfit [2000, 2001] [1, 3]) y)) :=
  forecast_kt_fallback (fun _ _ => none) [2000, 2001] [1, 3] 2 (by decide) rfl

/-- C10: `forecast_kt` treats a negative horizon exactly like horizon 0:
whenever `horizon ≤ 0` it returns (copies of) the input `(years, kt)`
unchanged — it neither fails nor truncates the series. -/
theorem forecast_kt_nonpos (arima : List ℚ → ℕ → Option (List ℚ))
    (years : List ℤ) (kt : List ℚ) (horizon : ℤ) (hh : horizon ≤ 0) :
    forecast_kt arima years kt horizon = some (years, kt) := by
  simp [forecast_kt, hh]

/-- C10 witness: a negative horizon on a concrete series returns it
unchanged. -/
theorem forecast_kt_nonpos_w :
    forecast_kt (fun _ _ => none) [2000] [1] (-3) = some ([2000], [1]) :=
  forecast_kt_nonpos (fun _ _ => none) [2000] [1] (-3) (by decide)

lemma rw_centered_sum (n : ℕ) (eps : Fin n → ℚ) (sigma : ℚ) :
    (∑ i, rw_centered n eps sigma i) = 0 := by
  unfold rw_centered
  simp only
  rw [Finset.sum_sub_distrib, Finset.sum_const, Finset.card_univ,
    Fintype.card_fin, nsmul_eq_mul]
  have h : ((n : ℚ) + 1) ≠ 0 := by positivity
  push_cast
  field_simp

lemma sum_univ_list_sum {m : ℕ} (l : List (Fin m → ℚ)) :
    ∑ i, (l.map fun d => d i).sum = (l.map fun d => ∑ i, d i).sum := by
  induction l with
  | nil => simp
  | cons d l ih => simp [Finset.sum_add_distrib, ih]

/-- C6: each APC effect draw — cumulative sum of standard-normal increments
with a leading zero, scaled by its sigma, then mean-centred — sums exactly
to zero, for every increment vector and every sigma; consequently the
posterior mean over any list of draws also sums to zero. -/
theorem apc_effect_sums_zero (n : ℕ) (eps : Fin n → ℚ) (sigma : ℚ)
    (draws : List ((Fin n → ℚ) × ℚ)) :
    (∑ i, rw_centered n eps sigma i) = 0 ∧
    (∑ i, postMean (draws.map fun p => rw_centered n p.1 p.2) i) = 0 := by
  refine ⟨rw_centered_sum n eps sigma, ?_⟩
  unfold postMean
  rw [← Finset.sum_div, sum_univ_list_sum]
  have hz : ((draws.map fun p => rw_centered n p.1 p.2).map
      fun d => ∑ i, d i).sum = 0 := by
    refine List.sum_eq_zero fun x hx => ?_
    obtain ⟨d, hd, rfl⟩ := List.mem_map.mp hx
    obtain ⟨p, _, rfl⟩ := List.mem_map.mp hd
    exact rw_centered_sum n p.1 p.2
  rw [hz, zero_div]

/-- C7 counterexample: with one comparable cell, observed `1` and fitted
`2`, the mean-percentage-error is `+100`; after swapping which series is
treated as observed it is `-50`, not `-100` — the denominator changes from
the observed to the fitted value, so MPE is not merely sign-flipped. -/
theorem mpe_swap_cex :
    ¬ mpeL ([((1 : ℚ), (2 : ℚ))].map Prod.swap) = - mpeL [((1 : ℚ), (2 : ℚ))] := by
  norm_num [mpeL, meanL]

/-- C7 amended: swapping which series is treated as observed and which as
fitted changes the sign of the mean bias while leaving MAE and RMSE
unchanged (RMSE via its square, the mean squared error); the
mean-percentage-error is **not** in general the negation of the original,
because its denominator switches from the observed to the fitted series
(R² is likewise excepted as asymmetric by definition). -/
theorem metrics_swap (pairs : List (ℚ × ℚ)) :
    maeL (pairs.map Prod.swap) = maeL pairs ∧
    mseL (pairs.map Prod.swap) = mseL pairs ∧
    biasL (pairs.map Prod.swap) = - biasL pairs := by
  refine ⟨?_, ?_, ?_⟩
  · simp only [maeL, meanL, List.map_map, List.length_map]
    congr 1
    refine congrArg List.sum (List.map_congr_left fun p _ => ?_)
    exact abs_sub_comm _ _
  · simp only [mseL, meanL, List.map_map, List.length_map]
    congr 1
    refine congrArg List.sum (List.map_congr_left fun p _ => ?_)
    simp only [Function.comp_apply, Prod.fst_swap, Prod.snd_swap]
    ring
  · simp only [biasL, meanL, List.map_map, List.length_map]
    have h : (pairs.map ((fun p : ℚ × ℚ => p.2 - p.1) ∘ Prod.swap)).sum =
        - (pairs.map fun p : ℚ × ℚ => p.2 - p.1).sum := by
      induction pairs with
      | nil => simp
      | cons p l ih =>
        simp only [List.map_cons, List.sum_cons, ih, Function.comp_apply,
          Prod.fst_swap, Prod.snd_swap]
        ring
    rw [h, neg_div]

/-- C8: `metrics_for` fails with an error whenever the intersection of the
observed and fitted pivots is empty — no shared ages or no shared years,
hence no comparable (age, year) cells — and any successful result carries
at least one compared pair (`n ≥ 1`): metrics are only ever computed when a
comparable pair exists. -/
theorem metrics_for_requires_overlap (obsAges obsYears : List ℤ)
    (obs : ℤ → ℤ → Option ℚ) (fitAges fitYears : List ℤ)
    (fit : ℤ → ℤ → Option ℚ) :
    (((∀ a ∈ obsAges, a ∉ fitAges) ∨ (∀ y ∈ obsYears, y ∉ fitYears)) →
      ∃ e, metrics_for obsAges obsYears obs fitAges fitYears fit =
        Except.error e) ∧
    (∀ m, metrics_for obsAges obsYears obs fitAges fitYears fit =
        Except.ok m → 1 ≤ m.n) := by
  constructor
  · intro h
    have hcond : ((obsAges.filter fun a => fitAges.contains a).isEmpty ||
        (obsYears.filter fun y => fitYears.contains y).isEmpty) = true := by
      simpa using h
    refine ⟨"No hay cruce comun edad-ano entre observado y ajustado", ?_⟩
    simp only [metrics_for]
    rw [if_pos hcond]
  · intro m hm
    simp only [metrics_for] at hm
    split_ifs at hm with h1 h2
    cases hm
    refine List.length_pos.mpr fun hnil => h2 ?_
    rw [hnil]
    rfl

/-- C8 witness: an observed pivot with one age and one year against a
fitted pivot with no ages at all fails with an error. -/
theorem metrics_for_requires_overlap_w :
    ∃ e, metrics_for [1] [2000] (fun _ _ => some 1) [] []
      (fun _ _ => none) = Except.error e :=
  (metrics_for_requires_overlap [1] [2000] (fun _ _ => some 1) [] []
    (fun _ _ => none)).1 (Or.inl (by intro a ha; simp))

/-- C9 counterexample: a dataframe with every required column, rows
matching the requested sex, and positive exposure — none of the claim's
three error conditions — still makes `build_apc_data` fail, because the two
identical rows give pandas `pivot` a duplicated `(gr_et, ano)` key and it
raises `ValueError: Index contains duplicate entries, cannot reshape`. -/
theorem build_apc_data_dup_cex :
    (build_apc_data dfDup 1).isOk = false ∧
    (∀ c ∈ apc_req_cols, c ∈ dfDup.cols) ∧
    (∃ r ∈ dfDup.rows, r.sexo = 1) ∧
    (∃ r ∈ dfDup.rows, r.sexo = 1 ∧ 0 < r.poblacion) := by
  refine ⟨?_, by decide, ⟨⟨2000, 1, 1, 10, 2⟩, by decide⟩,
    ⟨⟨2000, 1, 1, 10, 2⟩, by norm_num [dfDup]⟩⟩
  rfl

/-- C9 amended: `build_apc_data` fails if and only if a required column is
absent, or no row matches the requested sex, or the sex-filtered rows carry
a duplicated `(gr_et, ano)` key (the pandas pivot reshape error), or no
cell remains with exposure `E > 0`; on every other input it returns the
`(ages, years, D, E, ai, ti, ci)` data without failing (in particular the
in-code cohort assertion never fires). -/
theorem build_apc_data_error_iff (df : ApcFrame) (sexo : ℤ) :
    (build_apc_data df sexo).isOk = false ↔
      ((∃ c ∈ apc_req_cols, c ∉ df.cols) ∨
       (∀ r ∈ df.rows, r.sexo ≠ sexo) ∨
       ¬ ((df.rows.filter fun r => r.sexo == sexo).map
           fun r => (r.gr_et, r.ano)).Nodup ∨
       (∀ r ∈ df.rows, r.sexo = sexo → r.poblacion ≤ 0)) := by
  by_cases hmiss :
      (apc_req_cols.filter fun c => !(df.cols.contains c)).isEmpty = true
  · -- all required columns present
    have hc1f : ¬ ∃ c ∈ apc_req_cols, c ∉ df.cols := by
      rw [List.isEmpty_iff, List.filter_eq_nil_iff] at hmiss
      rintro ⟨c, hc, hnc⟩
      exact hnc (by simpa using hmiss c hc)
    by_cases hdemp : (df.rows.filter fun r => r.sexo == sexo).isEmpty = true
    · -- no rows for this sex
      have hc2 : ∀ r ∈ df.rows, r.sexo ≠ sexo := by
        rw [List.isEmpty_iff, List.filter_eq_nil_iff] at hdemp
        intro r hr
        simpa using hdemp r hr
      have hres : build_apc_data df sexo = .error "No hay datos para sexo" := by
        unfold build_apc_data
        rw [if_pos hmiss, if_pos hdemp]
      exact iff_of_true (by rw [hres]; rfl) (Or.inr (Or.inl hc2))
    · -- rows exist for this sex
      have hc2f : ¬ ∀ r ∈ df.rows, r.sexo ≠ sexo := by
        intro hall
        refine hdemp ?_
        rw [List.isEmpty_iff, List.filter_eq_nil_iff]
        intro r hr
        simpa using hall r hr
      by_cases hnd : ((df.rows.filter fun r => r.sexo == sexo).map
          fun r => (r.gr_et, r.ano)).Nodup
      · -- pivot succeeds
        set d := df.rows.filter fun r => r.sexo == sexo with hd
        set ages := ((d.map fun r => r.gr_et).dedup).insertionSort (· ≤ ·)
          with hages
        set years := ((d.map fun r => r.ano).dedup).insertionSort (· ≤ ·)
          with hyears
        set Dfun : ℤ → ℤ → Option ℚ := fun g y =>
          (d.find? fun r => r.gr_et == g && r.ano == y).map
            fun r => r.conteo_defunciones with hDfun
        set Efun : ℤ → ℤ → Option ℚ := fun g y =>
          (d.find? fun r => r.gr_et == g && r.ano == y).map
            fun r => r.poblacion with hEfun
        set obsL := ages.flatMap fun g => years.filterMap fun y =>
          match Dfun g y, Efun g y with
          | some _, some ev =>
            if 0 < ev then
              some (ages.indexOf g, years.indexOf y,
                cohortIndex ages.length (ages.indexOf g) (years.indexOf y))
            else none
          | _, _ => none with hobsL
        have hbuild : build_apc_data df sexo =
            (if obsL.isEmpty then .error "No hay celdas observadas con E>0"
             else if ∀ c ∈ obsL, 0 ≤ c.2.2 ∧
                 c.2.2 < (ages.length : ℤ) + years.length - 1 then
               .ok ⟨ages, years, Dfun, Efun, obsL⟩
             else .error "AssertionError") := by
          unfold build_apc_data pivotVal
          rw [if_pos hmiss, if_neg hdemp, if_pos hnd, if_pos hnd]
        have hmemd : ∀ r ∈ d, r.sexo = sexo ∧ r ∈ df.rows := by
          intro r hr
          have h2 := List.mem_filter.mp hr
          exact ⟨by simpa using h2.2, h2.1⟩
        have hc4_iff : (∀ r ∈ df.rows, r.sexo = sexo → r.poblacion ≤ 0) ↔
            (∀ r ∈ d, r.poblacion ≤ 0) := by
          constructor
          · intro h r hr
            exact h r (hmemd r hr).2 (hmemd r hr).1
          · intro h r hr hs
            exact h r (List.mem_filter.mpr ⟨hr, by simpa using hs⟩)
        have hinv : ∀ x ∈ obsL, ∃ r ∈ d, 0 < r.poblacion := by
          intro x hx
          rw [hobsL] at hx
          obtain ⟨g, hg, hx2⟩ := List.mem_flatMap.mp hx
          obtain ⟨y, hy, hx3⟩ := List.mem_filterMap.mp hx2
          cases hD : Dfun g y with
          | none =>
            simp only [hD] at hx3
            exact Option.noConfusion hx3
          | some dv =>
            cases hE : Efun g y with
            | none =>
              simp only [hD, hE] at hx3
              exact Option.noConfusion hx3
            | some ev =>
              simp only [hD, hE] at hx3
              by_cases hpos : 0 < ev
              · rw [hEfun] at hE
                simp only at hE
                obtain ⟨r', hr', hval⟩ := Option.map_eq_some'.mp hE
                exact ⟨r', List.mem_of_find?_eq_some hr', hval ▸ hpos⟩
              · rw [if_neg hpos] at hx3
                exact absurd hx3 (by simp)
        have hfwd : ∀ r ∈ d, 0 < r.poblacion → obsL ≠ [] := by
          intro r hr hpos hnil
          have hg : r.gr_et ∈ ages := by
            rw [hages, List.mem_insertionSort, List.mem_dedup]
            exact List.mem_map_of_mem _ hr
          have hy : r.ano ∈ years := by
            rw [hyears, List.mem_insertionSort, List.mem_dedup]
            exact List.mem_map_of_mem _ hr
          obtain ⟨r', hr'⟩ : ∃ r', (d.find? fun r2 =>
              r2.gr_et == r.gr_et && r2.ano == r.ano) = some r' := by
            cases hf : d.find? fun r2 => r2.gr_et == r.gr_et && r2.ano == r.ano with
            | none =>
              have h2 := List.find?_eq_none.mp hf r hr
              simp at h2
            | some r2 => exact ⟨r2, rfl⟩
          have hpred := List.find?_some hr'
          have hmem' := List.mem_of_find?_eq_some hr'
          simp only [Bool.and_eq_true, beq_iff_eq] at hpred
          have hkey : (fun r : ApcRow => (r.gr_et, r.ano)) r' =
              (fun r : ApcRow => (r.gr_et, r.ano)) r := by
            simp only [hpred.1, hpred.2]
          have hreq : r' = r := List.inj_on_of_nodup_map hnd hmem' hr hkey
          have hcellmem : (ages.indexOf r.gr_et, years.indexOf r.ano,
              cohortIndex ages.length (ages.indexOf r.gr_et)
                (years.indexOf r.ano)) ∈ obsL := by
            rw [hobsL]
            refine List.mem_flatMap.mpr ⟨r.gr_et, hg, ?_⟩
            refine List.mem_filterMap.mpr ⟨r.ano, hy, ?_⟩
            rw [hDfun, hEfun]
            simp only
            rw [hr', hreq]
            simp [hpos]
          rw [hnil] at hcellmem
          exact absurd hcellmem (List.not_mem_nil _)
        have hassert : ∀ c ∈ obsL, 0 ≤ c.2.2 ∧
            c.2.2 < (ages.length : ℤ) + years.length - 1 := by
          intro x hx
          rw [hobsL] at hx
          obtain ⟨g, hg, hx2⟩ := List.mem_flatMap.mp hx
          obtain ⟨y, hy, hx3⟩ := List.mem_filterMap.mp hx2
          have hgi : ages.indexOf g < ages.length := List.indexOf_lt_length.mpr hg
          have hyi : years.indexOf y < years.length := List.indexOf_lt_length.mpr hy
          cases hD : Dfun g y with
          | none =>
            simp only [hD] at hx3
            exact Option.noConfusion hx3
          | some dv =>
            cases hE : Efun g y with
            | none =>
              simp only [hD, hE] at hx3
              exact Option.noConfusion hx3
            | some ev =>
              simp only [hD, hE] at hx3
              by_cases hpos : 0 < ev
              · rw [if_pos hpos] at hx3
                have hx4 := (Option.some.inj hx3).symm
                subst hx4
                dsimp only
                unfold cohortIndex
                constructor
                · omega
                · omega
              · rw [if_neg hpos] at hx3
                exact absurd hx3 (by simp)
        by_cases hobs : obsL.isEmpty = true
        · have hc4 : ∀ r ∈ d, r.poblacion ≤ 0 := by
            intro r hr
            by_contra hpos
            exact hfwd r hr (lt_of_not_le hpos) (List.isEmpty_iff.mp hobs)
          rw [hbuild, if_pos hobs]
          exact iff_of_true rfl (Or.inr (Or.inr (Or.inr (hc4_iff.mpr hc4))))
        · rw [hbuild, if_neg hobs, if_pos hassert]
          refine iff_of_false (fun hh => Bool.noConfusion hh) ?_
          rintro (h | h | h | h)
          · exact hc1f h
          · exact hc2f h
          · exact h hnd
          · obtain ⟨x, hx⟩ := List.exists_mem_of_ne_nil obsL
              fun hnil => hobs (by rw [hnil]; rfl)
            obtain ⟨r, hr, hpos⟩ := hinv x hx
            exact absurd (hc4_iff.mp h r hr) (not_le.mpr hpos)
      · -- duplicate keys: pandas pivot error
        have hres : build_apc_data df sexo =
            .error "Index contains duplicate entries, cannot reshape" := by
          unfold build_apc_data pivotVal
          rw [if_pos hmiss, if_neg hdemp, if_neg hnd]
        exact iff_of_true (by rw [hres]; rfl) (Or.inr (Or.inr (Or.inl hnd)))
  · -- missing required column
    have hc1 : ∃ c ∈ apc_req_cols, c ∉ df.cols := by
      have hne : (apc_req_cols.filter fun c => !(df.cols.contains c)) ≠ [] := by
        simpa [List.isEmpty_iff] using hmiss
      obtain ⟨c, hc⟩ := List.exists_mem_of_ne_nil _ hne
      have h2 := List.mem_filter.mp hc
      exact ⟨c, h2.1, by simpa using h2.2⟩
    have hres : build_apc_data df sexo = .error "Faltan columnas" := by
      unfold build_apc_data
      rw [if_neg hmiss]
    exact iff_of_true (by rw [hres]; rfl) (Or.inl hc1)

